import Mathlib

/-!
Shallow embedding of `separa_livro.py` (PDF splitting by bookmarks) and
verification of its specified properties.

The PDF library is an external collaborator: an outline is modelled as a tree
of nodes, where a leaf carries a title and the page index that the library
would resolve its destination to, and a group is a nested list of nodes
(Python represents groups as `list` instances inside the outline sequence).
-/

/-- An outline node: either a leaf bookmark (title plus resolved zero-based
destination page), or a nested group of outline nodes (a Python sub-`list`). -/
inductive Outline where
  | leaf (title : String) (page : Nat)
  | group (children : List Outline)

/-- A flattened bookmark: `(title, start_page)`. -/
abbrev Bookmark := String × Nat

/-- Embedding of `get_bookmarks` (separa_livro.py lines 16-27).
The Python walks the outline list in order, appending to a mutable result
list; here the appends are modelled by concatenation in the same order.
For a group (`isinstance(outline, list)`): recurse with `depth - 1` when
`depth > 0`, recurse with the same depth when `depth == -1`, otherwise skip.
For a leaf: append `(title, page)` when `depth < 1`. -/
def get_bookmarks : List Outline → Int → List Bookmark
  | [], _ => []
  | Outline.leaf t p :: rest, depth =>
      (if depth < 1 then [(t, p)] else []) ++ get_bookmarks rest depth
  | Outline.group cs :: rest, depth =>
      (if depth > 0 then get_bookmarks cs (depth - 1)
       else if depth = -1 then get_bookmarks cs depth
       else []) ++ get_bookmarks rest depth

/-- The leaves sitting at nesting level exactly `k` of an outline forest
(the top level is level `0`), in left-to-right order. -/
def leavesAtLevel : Nat → List Outline → List Bookmark
  | _, [] => []
  | 0, Outline.leaf t p :: rest => (t, p) :: leavesAtLevel 0 rest
  | 0, Outline.group _ :: rest => leavesAtLevel 0 rest
  | k + 1, Outline.leaf _ _ :: rest => leavesAtLevel (k + 1) rest
  | k + 1, Outline.group cs :: rest => leavesAtLevel k cs ++ leavesAtLevel (k + 1) rest

/-- All leaves of an outline forest, depth-first, left-to-right. -/
def allLeaves : List Outline → List Bookmark
  | [] => []
  | Outline.leaf t p :: rest => (t, p) :: allLeaves rest
  | Outline.group cs :: rest => allLeaves cs ++ allLeaves rest

/-- Number of leaf nodes of an outline forest, at every nesting level. -/
def countLeaves : List Outline → Nat
  | [] => 0
  | Outline.leaf _ _ :: rest => 1 + countLeaves rest
  | Outline.group cs :: rest => countLeaves cs + countLeaves rest

/-- For a natural depth `d`, `get_bookmarks` collects exactly the leaves at
nesting level `d`: a leaf is appended only once the counter has been
decremented below `1`, and groups are entered only while the counter is
positive. -/
theorem get_bookmarks_ofNat : ∀ (os : List Outline) (d : Nat),
    get_bookmarks os (d : Int) = leavesAtLevel d os
  | [], _ => by simp [get_bookmarks, leavesAtLevel]
  | Outline.leaf t p :: rest, 0 => by
      have ih := get_bookmarks_ofNat rest 0
      push_cast at ih
      simp [get_bookmarks, leavesAtLevel, ih]
  | Outline.leaf t p :: rest, d + 1 => by
      have ih := get_bookmarks_ofNat rest (d + 1)
      push_cast at ih
      have hd : ¬ ((d : Int) + 1) < 1 := by omega
      simp [get_bookmarks, leavesAtLevel, ih, hd]
  | Outline.group cs :: rest, 0 => by
      have ih := get_bookmarks_ofNat rest 0
      push_cast at ih
      simp [get_bookmarks, leavesAtLevel, ih]
  | Outline.group cs :: rest, d + 1 => by
      have ihc := get_bookmarks_ofNat cs d
      have ih := get_bookmarks_ofNat rest (d + 1)
      push_cast at ih
      have hd : ((d : Int) + 1) > 0 := by omega
      have hsub : ((d : Int) + 1) - 1 = (d : Int) := by omega
      simp [get_bookmarks, leavesAtLevel, ih, hd, hsub, ihc]

/-- With depth `-1`, `get_bookmarks` flattens every leaf in document order. -/
theorem get_bookmarks_neg_one : ∀ os : List Outline,
    get_bookmarks os (-1) = allLeaves os
  | [] => by simp [get_bookmarks, allLeaves]
  | Outline.leaf t p :: rest => by
      have ih := get_bookmarks_neg_one rest
      simp [get_bookmarks, allLeaves, ih]
  | Outline.group cs :: rest => by
      have ihc := get_bookmarks_neg_one cs
      have ih := get_bookmarks_neg_one rest
      simp [get_bookmarks, allLeaves, ih, ihc]

/-- With any depth `≤ -2`, no group is entered and every leaf at the scanned
level is appended, exactly as with depth `0`. -/
theorem get_bookmarks_le_neg_two : ∀ (os : List Outline) (d : Int), d ≤ -2 →
    get_bookmarks os d = leavesAtLevel 0 os
  | [], _, _ => by simp [get_bookmarks, leavesAtLevel]
  | Outline.leaf t p :: rest, d, h => by
      have ih := get_bookmarks_le_neg_two rest d h
      have hd : d < 1 := by omega
      simp [get_bookmarks, leavesAtLevel, ih, hd]
  | Outline.group cs :: rest, d, h => by
      have ih := get_bookmarks_le_neg_two rest d h
      have hd : ¬ d > 0 := by omega
      have hd2 : ¬ d = -1 := by omega
      simp [get_bookmarks, leavesAtLevel, ih, hd, hd2]

/-- The depth-first flatten has one entry per leaf node. -/
theorem allLeaves_length : ∀ os : List Outline,
    (allLeaves os).length = countLeaves os
  | [] => by simp [allLeaves, countLeaves]
  | Outline.leaf t p :: rest => by
      have ih := allLeaves_length rest
      simp [allLeaves, countLeaves, ih, Nat.add_comm]
  | Outline.group cs :: rest => by
      have ihc := allLeaves_length cs
      have ih := allLeaves_length rest
      simp [allLeaves, countLeaves, ih, ihc]

/-- Claim C2, counterexample: with depth `1` the extractor visits the top
level, yet a top-level leaf is not included in the output (the code appends a
leaf only when `depth < 1`), so the list for the single-leaf outline is empty
rather than containing that leaf. -/
theorem c2_counterexample :
    get_bookmarks [Outline.leaf "Intro" 0] 1 = []
    ∧ ("Intro", 0) ∉ get_bookmarks [Outline.leaf "Intro" 0] 1 := by
  constructor <;> simp [get_bookmarks]

/-- Claim C2 (amended): for every outline tree and every depth `d > 0`, the
extractor descends into groups decrementing the depth counter and yields
exactly the leaves at nesting level `d` (top level = level 0), in order;
leaves at shallower levels are excluded and groups below level `d` are not
entered. -/
theorem c2_positive_depth_collects_level_d (os : List Outline) (d : Nat)
    (_hd : 0 < d) : get_bookmarks os (d : Int) = leavesAtLevel d os :=
  get_bookmarks_ofNat os d

/-- Witness for C2 (amended) at depth `1` on a two-entry outline. -/
theorem c2_positive_depth_collects_level_d_witness :
    0 < 1
    ∧ get_bookmarks [Outline.group [Outline.leaf "a" 2], Outline.leaf "b" 5]
        ((1 : Nat) : Int)
      = leavesAtLevel 1 [Outline.group [Outline.leaf "a" 2], Outline.leaf "b" 5]
    ∧ leavesAtLevel 1 [Outline.group [Outline.leaf "a" 2], Outline.leaf "b" 5]
      = [("a", 2)] :=
  ⟨Nat.one_pos,
   c2_positive_depth_collects_level_d _ 1 Nat.one_pos,
   by simp [leavesAtLevel]⟩

/-- Claim C3: with depth `-1` the extractor yields exactly the leaves of the
outline tree in depth-first left-to-right order, so its length is the total
number of leaf nodes at every nesting level. -/
theorem c3_depth_neg_one_flattens_all_leaves (os : List Outline) :
    get_bookmarks os (-1) = allLeaves os
    ∧ (get_bookmarks os (-1)).length = countLeaves os :=
  ⟨get_bookmarks_neg_one os,
   by rw [get_bookmarks_neg_one os, allLeaves_length os]⟩

/-- Claim C4: with depth `0` the extractor yields exactly the top-level
leaves, in order; nested groups and all their descendants contribute
nothing. -/
theorem c4_depth_zero_top_level_leaves (os : List Outline) :
    get_bookmarks os 0 = leavesAtLevel 0 os := by
  have h := get_bookmarks_ofNat os 0
  simpa using h

/-- Claim C9: with any depth `d ≤ -2` the extractor behaves exactly as with
depth `0`: leaves at the scanned level are appended and no group is ever
entered. -/
theorem c9_depth_le_neg_two_equals_depth_zero (os : List Outline) (d : Int)
    (h : d ≤ -2) : get_bookmarks os d = get_bookmarks os 0 := by
  rw [get_bookmarks_le_neg_two os d h]
  have h0 := get_bookmarks_ofNat os 0
  simpa using h0.symm

/-- Witness for C9 at depth `-2` on a two-entry outline. -/
theorem c9_depth_le_neg_two_equals_depth_zero_witness :
    (-2 : Int) ≤ -2
    ∧ get_bookmarks [Outline.group [Outline.leaf "a" 2], Outline.leaf "b" 5] (-2)
      = get_bookmarks [Outline.group [Outline.leaf "a" 2], Outline.leaf "b" 5] 0
    ∧ get_bookmarks [Outline.group [Outline.leaf "a" 2], Outline.leaf "b" 5] (-2)
      = [("b", 5)] :=
  ⟨le_refl _,
   c9_depth_le_neg_two_equals_depth_zero _ (-2) (le_refl _),
   by simp [get_bookmarks]⟩

/-- End page of bookmark `i` (separa_livro.py lines 54-56):
`bookmarks[i + 1][1]` when `i + 1 < len(bookmarks)`, else the total page
count `len(pdf_reader.pages)`. -/
def endPage (bms : List Bookmark) (total : Nat) (i : Nat) : Nat :=
  if h : i + 1 < bms.length then (bms.get ⟨i + 1, h⟩).2 else total

/-- The half-open page range `[start, end)` the splitter computes for the
bookmark at index `i`: start is `bookmarks[i]`'s own start page (line 53),
end is `endPage` (lines 54-56). -/
def section_range (bms : List Bookmark) (total : Nat) (i : Nat)
    (h : i < bms.length) : Nat × Nat :=
  ((bms.get ⟨i, h⟩).2, endPage bms total i)

/-- The title filter of `separate_by_bookmark` (line 61):
`not key or key in title`, where Python `in` on strings is substring
containment. -/
def keyMatches (key title : String) : Bool :=
  key == "" || decide (key.toList <:+: title.toList)

/-- Embedding of `separate_by_bookmark` (lines 53-80) as the ordered list of
`(title, start, end)` sections the loop processes: the end page is computed
from the unfiltered bookmark list for every index, and the key filter only
decides whether the section is reported (mock) or materialized. -/
def separate_by_bookmark (bms : List Bookmark) (total : Nat) (key : String) :
    List (String × Nat × Nat) :=
  bms.enum.filterMap fun p =>
    if keyMatches key p.2.1 then some (p.2.1, p.2.2, endPage bms total p.1)
    else none

/-- Claim C1: for a bookmark list of length `n` and total page count `total`,
the range computed for index `i` starts at `bookmarks[i]`'s start page, ends
at `bookmarks[i + 1]`'s start page when `i < n - 1`, and ends at `total` when
`i = n - 1`. -/
theorem c1_section_range_start_end (bms : List Bookmark) (total : Nat)
    (i : Nat) (h : i < bms.length) :
    (section_range bms total i h).1 = (bms.get ⟨i, h⟩).2
    ∧ (∀ h2 : i < bms.length - 1,
        (section_range bms total i h).2 = (bms.get ⟨i + 1, by omega⟩).2)
    ∧ (i = bms.length - 1 → (section_range bms total i h).2 = total) := by
  refine ⟨rfl, fun h2 => ?_, fun hlast => ?_⟩
  · have hlt : i + 1 < bms.length := by omega
    simp [section_range, endPage, hlt]
  · have hge : ¬ i + 1 < bms.length := by omega
    simp [section_range, endPage, hge]

/-- Witness for C1 on the list `[("a", 0), ("b", 3)]` with 10 total pages. -/
theorem c1_section_range_start_end_witness :
    (section_range [("a", 0), ("b", 3)] 10 0 (by decide)).1 = 0
    ∧ (section_range [("a", 0), ("b", 3)] 10 0 (by decide)).2 = 3
    ∧ (section_range [("a", 0), ("b", 3)] 10 1 (by decide)).2 = 10 := by
  have h0 := c1_section_range_start_end [("a", 0), ("b", 3)] 10 0 (by decide)
  have h1 := c1_section_range_start_end [("a", 0), ("b", 3)] 10 1 (by decide)
  exact ⟨h0.1.trans rfl, (h0.2.1 (by decide)).trans rfl, h1.2.2 (by decide)⟩

/-- A `filterMap` whose guard is read off the produced element equals the
unguarded map followed by a filter on that element. -/
theorem filterMap_guard_eq_filter_map {α β : Type} (g : α → β) (c : α → Bool)
    (q : β → Bool) (hc : ∀ a, c a = q (g a)) :
    ∀ l : List α,
      l.filterMap (fun a => if c a then some (g a) else none)
        = (l.map g).filter q
  | [] => rfl
  | a :: l => by
      have ih := filterMap_guard_eq_filter_map g c q hc l
      cases hq : q (g a) <;>
        simp [List.filterMap_cons, List.filter_cons, hc a, hq, ih]

/-- `filterMap` of an always-`some` function is a `map`. -/
theorem filterMap_some_eq_map {α β : Type} (g : α → β) :
    ∀ l : List α, l.filterMap (fun a => some (g a)) = l.map g
  | [] => rfl
  | a :: l => by
      have ih := filterMap_some_eq_map g l
      simp [List.filterMap_cons, ih]

/-- With the empty key every bookmark is processed. -/
theorem separate_by_bookmark_empty_key (bms : List Bookmark) (total : Nat) :
    separate_by_bookmark bms total ""
      = bms.enum.map (fun p => (p.2.1, p.2.2, endPage bms total p.1)) := by
  simp [separate_by_bookmark, keyMatches]
  exact filterMap_some_eq_map _ bms.enum

/-- Claim C5: a bookmark is processed iff the key is empty or a
case-sensitive substring of its title; the processed sections are exactly the
empty-key sections restricted to matching titles (so each processed range is
the one computed from the unfiltered list), and the end page at the last
index is always the total page count. -/
theorem c5_filter_only_selects (bms : List Bookmark) (total : Nat)
    (key : String) :
    separate_by_bookmark bms total key
      = (separate_by_bookmark bms total "").filter (fun x => keyMatches key x.1)
    ∧ (∀ t : String,
        keyMatches key t = true ↔ (key = "" ∨ key.toList <:+: t.toList))
    ∧ endPage bms total (bms.length - 1) = total := by
  refine ⟨?_, ?_, ?_⟩
  · rw [separate_by_bookmark_empty_key]
    exact filterMap_guard_eq_filter_map
      (fun p => (p.2.1, p.2.2, endPage bms total p.1))
      (fun p => keyMatches key p.2.1) (fun x => keyMatches key x.1)
      (fun _ => rfl) bms.enum
  · intro t
    simp [keyMatches]
  · have hn : ¬ (bms.length - 1 + 1 < bms.length) := by omega
    simp [endPage, hn]

/-- The reserved characters matched by the regex class `[\\/:*?"<>|]`
(separa_livro.py line 96). -/
def invalidChar (c : Char) : Bool :=
  c == '\\' || c == '/' || c == ':' || c == '*' || c == '?' || c == '"' ||
  c == '<' || c == '>' || c == '|'

/-- Replace every character satisfying `p` by the character sequence `rep`.
Python's `re.sub` on a character class and `str.replace` on a single
character both substitute the whole replacement string for each matched
character. -/
def replaceChars (p : Char → Bool) (rep : List Char) : List Char → List Char
  | [] => []
  | c :: cs => (if p c then rep else [c]) ++ replaceChars p rep cs

/-- Embedding of `sanitize_file_name` (lines 83-108): replace the reserved
characters by `replacement` (line 99), then replace spaces by `replacement`
(line 102), then truncate to `max_length` characters when the result is
longer (lines 105-106). -/
def sanitize_file_name (input_string : String) (replacement : String := "_")
    (max_length : Option Nat := none) : String :=
  let s1 := replaceChars invalidChar replacement.toList input_string.toList
  let s2 := replaceChars (fun c => c == ' ') replacement.toList s1
  match max_length with
  | some m => if s2.length > m then String.mk (s2.take m) else String.mk s2
  | none => String.mk s2

/-- Output file name derivation inside `separate_by_bookmark` (lines 73-74):
spaces in the title become underscores (`title.replace(' ', '_')`), `.pdf`
is appended, and the result is passed through the sanitizer with default
settings. -/
def output_filename (title : String) : String :=
  sanitize_file_name
    (String.mk (replaceChars (fun c => c == ' ') "_".toList title.toList)
      ++ ".pdf")

/-- Every character of `replaceChars p rep l` comes from `rep` or is a
character of `l` on which `p` is false. -/
theorem mem_replaceChars (p : Char → Bool) (rep : List Char) :
    ∀ l : List Char, ∀ c ∈ replaceChars p rep l,
      c ∈ rep ∨ (c ∈ l ∧ p c = false)
  | [], c, hc => by simp [replaceChars] at hc
  | a :: l, c, hc => by
      have ih := mem_replaceChars p rep l c
      rw [replaceChars] at hc
      rcases List.mem_append.mp hc with h1 | h2
      · by_cases hpa : p a = true
        · rw [if_pos hpa] at h1
          exact Or.inl h1
        · rw [if_neg hpa] at h1
          have : c = a := by simpa using h1
          subst this
          exact Or.inr ⟨List.mem_cons_self _ _, by simpa using hpa⟩
      · rcases ih h2 with h | ⟨hm, hp⟩
        · exact Or.inl h
        · exact Or.inr ⟨List.mem_cons_of_mem _ hm, hp⟩

/-- `replaceChars` leaves a list alone when no character matches. -/
theorem replaceChars_id (p : Char → Bool) (rep : List Char) :
    ∀ l : List Char, (∀ c ∈ l, p c = false) → replaceChars p rep l = l
  | [], _ => rfl
  | a :: l, h => by
      have ih := replaceChars_id p rep l (fun c hc => h c (List.mem_cons_of_mem _ hc))
      have ha : p a = false := h a (List.mem_cons_self _ _)
      simp [replaceChars, ha, ih]

/-- With a one-character replacement, `replaceChars` preserves length. -/
theorem replaceChars_length (p : Char → Bool) (rep : List Char)
    (hrep : rep.length = 1) :
    ∀ l : List Char, (replaceChars p rep l).length = l.length
  | [] => rfl
  | a :: l => by
      have ih := replaceChars_length p rep hrep l
      by_cases hpa : p a = true
      · simp [replaceChars, hpa, ih, hrep]
        omega
      · simp [replaceChars, hpa, ih, hrep]

/-- With default settings, every character of the sanitized string is either
the underscore or a character of the input that is neither reserved nor a
space. -/
theorem sanitize_file_name_chars (s : String) :
    ∀ c ∈ (sanitize_file_name s).toList,
      invalidChar c = false ∧ (c == ' ') = false := by
  intro c hc
  have hc2 : c ∈ replaceChars (fun c => c == ' ') "_".toList
      (replaceChars invalidChar "_".toList s.toList) := hc
  rcases mem_replaceChars _ _ _ c hc2 with h | ⟨hm, hsp⟩
  · have : c = '_' := by simpa using h
    subst this
    exact ⟨by decide, by decide⟩
  · rcases mem_replaceChars _ _ _ c hm with h | ⟨_, hinv⟩
    · have : c = '_' := by simpa using h
      subst this
      exact ⟨by decide, by decide⟩
    · exact ⟨hinv, hsp⟩

/-- Claim C6: with default settings, the sanitized string contains no
character of the reserved set `\\ / : * ? " < > |` and no space. -/
theorem c6_sanitize_removes_reserved_and_spaces (s : String) :
    ((sanitize_file_name s).toList.all
      (fun c => !(invalidChar c) && !(c == ' '))) = true := by
  rw [List.all_eq_true]
  intro c hc
  have h := sanitize_file_name_chars s c hc
  simp [h.1, h.2]

/-- Claim C7: sanitization with default settings is idempotent. -/
theorem c7_sanitize_idempotent (s : String) :
    sanitize_file_name (sanitize_file_name s) = sanitize_file_name s := by
  have h := sanitize_file_name_chars s
  show String.mk (replaceChars (fun c => c == ' ') "_".toList
      (replaceChars invalidChar "_".toList (sanitize_file_name s).toList))
    = sanitize_file_name s
  rw [replaceChars_id invalidChar _ _ (fun c hc => (h c hc).1)]
  rw [replaceChars_id _ _ _ (fun c hc => (h c hc).2)]
  generalize sanitize_file_name s = t
  cases t
  rfl

/-- Claim C10: with the default one-character replacement and no maximum
length, sanitization preserves the character count. -/
theorem c10_sanitize_preserves_length (s : String) :
    (sanitize_file_name s).length = s.length := by
  have h1 : ("_".toList).length = 1 := rfl
  show (replaceChars (fun c => c == ' ') "_".toList
      (replaceChars invalidChar "_".toList s.toList)).length = s.length
  rw [replaceChars_length _ _ h1, replaceChars_length _ _ h1]
  rfl

/-- Claim C8: the title `A/B: C?` yields the output file name
`A_B__C_.pdf`. -/
theorem c8_output_filename_scenario :
    output_filename "A/B: C?" = "A_B__C_.pdf" := by decide
